import Mathlib

/-
Verification development for the document-intake dashboard
(src/app/Auto-Magic Document AI.py).

The Python program is shallowly embedded below.  JSON-like Python values
(the payloads stored in CLASS_PROMPTS and the per-field answers returned
by AI_EXTRACT) are modelled by the inductive type PVal; Python dicts are
association lists in insertion order (keys of a real Python dict are
distinct).  Numeric values are modelled as integers.  Fallible code
returns Option or Except.  Each definition is translated from the source
function of the same name; purely presentational code (Streamlit widgets,
SQL text assembly) is out of scope of the claims and is not modelled.
-/

set_option autoImplicit false

namespace DocAI

/-- JSON-like Python value: None, bool, number (modelled as an integer),
string, list, or dict (association list in insertion order). -/
inductive PVal where
  | vnull
  | vbool (b : Bool)
  | vint (n : Int)
  | vstr (s : String)
  | vlist (xs : List PVal)
  | vdict (kvs : List (String × PVal))

/-- A value held in a rendered table cell: a JSON-like value or a Python
bytes object.  Cells of the result tables in the source hold parsed JSON
answers, empty strings, or (in principle) binary blobs. -/
inductive CellVal where
  | pv (v : PVal)
  | pybytes (bs : List Nat)

/- ────────────────────────────────────────────────────────────
   Python string helpers: str.strip and its whitespace set.
   ──────────────────────────────────────────────────────────── -/

/-- The characters removed by Python str.strip with no argument. -/
def pySpace (ch : Char) : Bool :=
  ch == ' ' || ch == '\t' || ch == '\n' || ch == '\r' || ch == '\x0b' || ch == '\x0c'

/-- Python str.strip on a character list: drop leading and trailing
whitespace. -/
def pyStripList (l : List Char) : List Char :=
  ((l.dropWhile pySpace).reverse.dropWhile pySpace).reverse

/-- Python str.strip. -/
def pyStrip (s : String) : String :=
  String.mk (pyStripList s.data)

/- ────────────────────────────────────────────────────────────
   json.dumps (as used by the rendering helper stringify).
   ──────────────────────────────────────────────────────────── -/

/-- Lower-case hexadecimal digit. -/
def hexDigit (n : Nat) : Char :=
  if n < 10 then Char.ofNat (48 + n) else Char.ofNat (87 + n)

/-- Escaping of one character inside a JSON string literal, as json.dumps
with ensure_ascii=False performs it. -/
def jsonEscapeChar (c : Char) : String :=
  if c == '"' then "\\\""
  else if c == '\\' then "\\\\"
  else if c == '\n' then "\\n"
  else if c == '\t' then "\\t"
  else if c == '\r' then "\\r"
  else if c == '\x08' then "\\b"
  else if c == '\x0c' then "\\f"
  else if c.toNat < 32 then "\\u00" ++ String.mk [hexDigit (c.toNat / 16), hexDigit (c.toNat % 16)]
  else String.singleton c

/-- A JSON string literal for s. -/
def jsonQuote (s : String) : String :=
  "\"" ++ String.join (s.data.map jsonEscapeChar) ++ "\""

mutual

/-- json.dumps parameterized by the item separator and the key separator
(Python json.dumps defaults are item separator comma-space and key
separator colon-space; the compact form uses bare comma and colon). -/
def jsonDumpsWith (isep ksep : String) : PVal → String
  | .vnull => "null"
  | .vbool b => if b then "true" else "false"
  | .vint n => toString n
  | .vstr s => jsonQuote s
  | .vlist xs => "[" ++ jsonDumpsList isep ksep xs ++ "]"
  | .vdict kvs => "\x7b" ++ jsonDumpsDict isep ksep kvs ++ "\x7d"

/-- Renders the elements of a JSON array, separated by isep. -/
def jsonDumpsList (isep ksep : String) : List PVal → String
  | [] => ""
  | [x] => jsonDumpsWith isep ksep x
  | x :: y :: rest => jsonDumpsWith isep ksep x ++ isep ++ jsonDumpsList isep ksep (y :: rest)

/-- Renders the entries of a JSON object, separated by isep, each key and
value separated by ksep. -/
def jsonDumpsDict (isep ksep : String) : List (String × PVal) → String
  | [] => ""
  | [kv] => jsonQuote kv.1 ++ ksep ++ jsonDumpsWith isep ksep kv.2
  | kv :: kv2 :: rest =>
      jsonQuote kv.1 ++ ksep ++ jsonDumpsWith isep ksep kv.2 ++ isep
        ++ jsonDumpsDict isep ksep (kv2 :: rest)

end

/-- json.dumps with default separators, as called in stringify. -/
def jsonDefault (v : PVal) : String := jsonDumpsWith ", " ": " v

/-- json.dumps with the compact separators (the form the Python json
documentation calls the compact representation). -/
def jsonCompact (v : PVal) : String := jsonDumpsWith "," ":" v

/-- Rendering helper stringify from the source: None becomes "", lists
and dicts go through json.dumps with default separators, bytes become a
byte-count placeholder, and remaining scalars go through str. -/
def stringify : CellVal → String
  | .pv .vnull => ""
  | .pv (.vlist xs) => jsonDefault (.vlist xs)
  | .pv (.vdict kvs) => jsonDefault (.vdict kvs)
  | .pybytes bs => "<" ++ toString bs.length ++ " bytes>"
  | .pv (.vbool b) => if b then "True" else "False"
  | .pv (.vint n) => toString n
  | .pv (.vstr s) => s

/-- Rendering helper to_display_df from the source: every cell of the
frame is mapped through stringify (fillna is a no-op because stringify
already yields strings). -/
def to_display_df (df : List (List CellVal)) : List (List String) :=
  df.map (fun row => row.map stringify)

/- ────────────────────────────────────────────────────────────
   Worker-pool sizing of the batch coordinator.
   ──────────────────────────────────────────────────────────── -/

/-- Python x or d for an optional positive count: None and 0 are falsy. -/
def pyOrInt (v : Option Nat) (d : Nat) : Nat :=
  match v with
  | none => d
  | some n => if n == 0 then d else n

/-- The pool-size computation of stream_files:
min(8, max(2, (os.cpu_count() or 4))). -/
def max_workers (cpu_count : Option Nat) : Nat :=
  min 8 (max 2 (pyOrInt cpu_count 4))

/- ────────────────────────────────────────────────────────────
   Classification retry loop of the interactive page.
   ──────────────────────────────────────────────────────────── -/

/-- Outcome of one classify attempt: the SQL call raises, or it returns a
CLASS_NAME value (which may be SQL NULL, modelled as none). -/
inductive ClassifyOutcome where
  | raises (msg : String)
  | returns (className : Option String)

/-- True when the attempt raised an exception. -/
def attemptRaises : ClassifyOutcome → Bool
  | .raises _ => true
  | .returns _ => false

/-- The retry loop body: walk the attempt outcomes, breaking on the first
attempt that does not raise; each raising attempt records last_error and
sleeps 0.5 seconds.  Returns (doc_class, last_error, sleep durations). -/
def classifyRunAux : List ClassifyOutcome → Option String →
    Option String × Option String × List ℚ
  | [], le => (none, le, [])
  | .returns v :: _, le => (v, le, [])
  | .raises m :: rest, le =>
      let r := classifyRunAux rest (some m)
      (r.1, r.2.1, (1 / 2 : ℚ) :: r.2.2)

/-- The classify retry loop: for attempt in range(1, 6), so at most five
attempts are made. -/
def classify_retry (outcomes : List ClassifyOutcome) :
    Option String × Option String × List ℚ :=
  classifyRunAux (outcomes.take 5) none

/-- Python truthiness test applied to doc_class after the loop: None and
the empty string are falsy. -/
def pyFalsyStrOpt : Option String → Bool
  | none => true
  | some s => s == ""

/-- Python str formatting of last_error inside the f-string. -/
def pyFormatOptStr : Option String → String
  | none => "None"
  | some s => s

/-- The classify section of the interactive page: run the retry loop; if
doc_class is falsy, display the error text and the failing query and stop
(modelled as Except.error carrying the message and the query text);
otherwise continue with the class. -/
def classifyPage (classifySql : String) (outcomes : List ClassifyOutcome) :
    Except (String × String) String :=
  let r := classify_retry outcomes
  if pyFalsyStrOpt r.1 then
    .error ("Classification failed after 5 attempts. Last error: " ++ pyFormatOptStr r.2.1,
            classifySql)
  else
    .ok (r.1.getD "")

/-- First attempt outcome that returns (does not raise), if any. -/
def firstReturn : List ClassifyOutcome → Option (Option String)
  | [] => none
  | .returns v :: _ => some v
  | .raises _ :: rest => firstReturn rest

/- ────────────────────────────────────────────────────────────
   Prompt loading and canonicalization.
   ──────────────────────────────────────────────────────────── -/

/-- Python truthiness of the class_name argument (None and "" are falsy). -/
def truthyName : Option String → Bool
  | none => false
  | some s => !(s == "")

/-- Python class_name or the empty string, as in the fallback f-string. -/
def classNameOrEmpty (c : Option String) : String :=
  match c with
  | none => ""
  | some s => s

/-- The generic fallback prompt built at the end of
canonicalize_for_storage. -/
def genericPrompt (c : Option String) : PVal :=
  .vlist [.vstr "q", .vstr ("Extract key facts for class " ++ classNameOrEmpty c ++ ".")]

/-- The key names probed inside nested prompt dicts, in order. -/
def qKeys : List String := ["question", "prompt", "q", "text"]

/-- First key among qKeys whose value in v is a string with non-blank
strip; yields that stripped string.  Mirrors the inner for-loops of
canonicalize_for_storage. -/
def firstQ (v : List (String × PVal)) : Option String :=
  qKeys.findSome? (fun kk =>
    match List.lookup kk v with
    | some (.vstr s) => if pyStrip s == "" then none else some (pyStrip s)
    | _ => none)

/-- One entry of the flat map: a string value with non-blank strip is
kept stripped; a dict value is probed with firstQ; anything else is
skipped. -/
def stripEntry : PVal → Option String
  | .vstr s => if pyStrip s == "" then none else some (pyStrip s)
  | .vdict v => firstQ v
  | _ => none

/-- The flat dict built by the main loop of canonicalize_for_storage.
Keys of a Python dict are distinct, so each assignment inserts a fresh
key in iteration order. -/
def buildFlat (kvs : List (String × PVal)) : List (String × PVal) :=
  kvs.filterMap (fun kv => (stripEntry kv.2).map (fun s => (kv.1, PVal.vstr s)))

/-- The single-key special case at the top of canonicalize_for_storage:
when the dict has exactly one key, class_name is truthy and is that key,
and the value is a dict with a usable question, return the two-element
q-list; in every other situation fall through. -/
def specialSingle (kvs : List (String × PVal)) (c : Option String) : Option PVal :=
  if kvs.length == 1 then
    if truthyName c then
      match List.lookup (classNameOrEmpty c) kvs with
      | some (.vdict v) => (firstQ v).map (fun s => PVal.vlist [.vstr "q", .vstr s])
      | _ => none
    else none
  else none

/-- Prompt normalization canonicalize_for_storage from the source: a list
is returned unchanged; a dict goes through the single-key special case,
then the flat map, and otherwise (as for every non-list non-dict value)
the generic single free-form question is returned. -/
def canonicalize_for_storage (p : PVal) (class_name : Option String) : PVal :=
  match p with
  | .vlist xs => .vlist xs
  | .vdict kvs =>
      match specialSingle kvs class_name with
      | some r => r
      | none =>
          let flat := buildFlat kvs
          if flat.isEmpty then genericPrompt class_name else .vdict flat
  | _ => genericPrompt class_name

/-- normalize_for_extract from the source is an alias of
canonicalize_for_storage. -/
def normalize_for_extract (p : PVal) (class_name : Option String) : PVal :=
  canonicalize_for_storage p class_name

/-- The PROMPTS cell read back from CLASS_PROMPTS, as load_prompts_obj
branches on it: a Python dict or list, a string (carried together with
the outcome of json.loads on it, none meaning json.loads raises), or a
value of any other type. -/
inductive RawPrompts where
  | rdict (kvs : List (String × PVal))
  | rlist (xs : List PVal)
  | rstr (parsed : Option PVal)
  | rother

/-- The result of the CLASS_PROMPTS query inside load_prompts_obj: the
query raises, returns no row, or returns one PROMPTS cell. -/
inductive StoredPrompts where
  | queryRaises
  | noRow
  | cell (raw : RawPrompts)

/-- load_prompts_obj from the source: a falsy class name, a failing or
empty query, an unparsable string cell, and a cell of unexpected type all
yield the empty dict; a dict or list cell is returned as is; a string
cell is returned as json.loads parses it. -/
def load_prompts_obj (class_name : Option String) (stored : StoredPrompts) : PVal :=
  if truthyName class_name then
    match stored with
    | .queryRaises => .vdict []
    | .noRow => .vdict []
    | .cell (.rdict kvs) => .vdict kvs
    | .cell (.rlist xs) => .vlist xs
    | .cell (.rstr (some v)) => v
    | .cell (.rstr none) => .vdict []
    | .cell .rother => .vdict []
  else .vdict []

/- ────────────────────────────────────────────────────────────
   The batch streaming coordinator (stream_files / process_one).
   ──────────────────────────────────────────────────────────── -/

/-- Per-item answers, a Python dict of field name to value. -/
abbrev Answers := List (String × PVal)

/-- Outcome of the ai_extract call made by process_one: the call raises,
or it returns a dict whose response entry is either a dict of answers or
absent/None. -/
inductive AIOutcome where
  | exn (msg : String)
  | ok (resp : Option Answers)

/-- The answers process_one ends up with:
answers = res_obj.get("response", or-empty) with the except branch
leaving answers as the empty dict. -/
def answersOf : AIOutcome → Answers
  | .exn _ => []
  | .ok none => []
  | .ok (some d) => d

/-- True when the extraction call of the item raised. -/
def isFailure : AIOutcome → Bool
  | .exn _ => true
  | .ok _ => false

/-- process_one from the source, with the best-effort fire-and-forget
persistence writes (whose failures are swallowed) elided: it returns the
relative path together with the answers dict. -/
def process_one (rel_path : String) (outcome : AIOutcome) : String × Answers :=
  (rel_path, answersOf outcome)

/-- One row of the streaming result frame: the file cell (normally the
string key of the work item) and the dynamic-column cells that have been
written; a cell that was never written holds the default empty string. -/
structure Row where
  key : PVal
  cells : Answers

/-- The streaming result frame: rows in insertion order plus the dynamic
columns added so far, in insertion order.  The full pandas column list is
the file column followed by dynCols. -/
structure Table where
  rows : List Row
  dynCols : List String

/-- The mutable state of the streaming loop: the frame current_df and the
Python set all_keys (kept as a duplicate-free list). -/
structure BState where
  table : Table
  allKeys : List String

/-- Boolean test of the pandas comparison current_df["file"] == rel on
one cell: a non-string cell never equals the string rel. -/
def Row.keyIs (r : Row) (x : String) : Bool :=
  match r.key with
  | .vstr s => s == x
  | _ => false

/-- Replace the binding of key in an association list, or append it. -/
def assocSet (l : Answers) (key : String) (v : PVal) : Answers :=
  match l with
  | [] => [(key, v)]
  | (k, w) :: rest => if k == key then (k, v) :: rest else (k, w) :: assocSet rest key v

/-- Write one cell of a row: writing to the file column replaces the row
key (pandas has a single column of that name); any other column writes a
dynamic cell. -/
def setCell (r : Row) (kf : String) (v : PVal) : Row :=
  if kf == "file" then { r with key := v } else { r with cells := assocSet r.cells kf v }

/-- The pandas column assignment current_df[kf] = "" for a freshly
discovered key kf: assigning to the name file overwrites the key column
of every row with the empty string; assigning to an existing dynamic
column resets it to empty strings; otherwise a new dynamic column whose
cells default to the empty string is appended. -/
def addColumn (t : Table) (kf : String) : Table :=
  if kf == "file" then
    { t with rows := t.rows.map (fun r => { r with key := .vstr "" }) }
  else if kf ∈ t.dynCols then
    { t with rows := t.rows.map (fun r => { r with cells := assocSet r.cells kf (.vstr "") }) }
  else
    { t with dynCols := t.dynCols ++ [kf] }

/-- The write loop: for kf in all_keys, if kf is a key of answers, write
answers[kf] into the cell of the row. -/
def writeRow (r : Row) (ks : List String) (ans : Answers) : Row :=
  ks.foldl (fun r kf =>
    match List.lookup kf ans with
    | some v => setCell r kf v
    | none => r) r

/-- Index of the first row matching the mask current_df["file"] == rel,
that is, ridx[0] when ridx is non-empty. -/
def findIdxA (p : Row → Bool) : List Row → Option Nat
  | [] => none
  | r :: rs => if p r then some 0 else (findIdxA p rs).map (· + 1)

/-- Keep the first occurrence of every string (the set constructor). -/
def dedupA : List String → List String
  | [] => []
  | x :: xs => if x ∈ xs then dedupA xs else x :: dedupA xs

/-- Code-point comparison of character lists, as Python compares strings. -/
def charLeB : List Char → List Char → Bool
  | [], _ => true
  | _ :: _, [] => false
  | a :: as, b :: bs =>
      if a.toNat < b.toNat then true
      else if b.toNat < a.toNat then false
      else charLeB as bs

/-- Python string less-or-equal. -/
def strLeB (a b : String) : Bool := charLeB a.data b.data

/-- Insert into a sorted list of strings. -/
def insertSorted (x : String) : List String → List String
  | [] => [x]
  | y :: ys => if strLeB x y then x :: y :: ys else y :: insertSorted x ys

/-- Python sorted on a list of strings. -/
def pySorted : List String → List String
  | [] => []
  | x :: xs => insertSorted x (pySorted xs)

/-- The default row used only to satisfy totality of list indexing; every
use is guarded by a successful findIdxA. -/
def defaultRow : Row := { key := .vnull, cells := [] }

/-- The sorted list of fresh field names of one completion:
sorted(set(answers.keys()) - all_keys). -/
def newKeysOf (allKeys : List String) (answers : Answers) : List String :=
  pySorted ((dedupA (answers.map Prod.fst)).filter (fun kf => decide (kf ∉ allKeys)))

/-- The row-locate-and-write tail of one merge iteration, running on the
state whose columns and all_keys have already been extended by the fresh
keys: locate the row for rel (ridx); if the mask is empty, append a row
(whose file cell is empty when file is among all_keys, because the
appended dict is overridden by the all_keys defaults) and re-locate; then
write the answers into the cells of row ridx[0].  Returns none exactly
when ridx is still empty at that write, where the Python code raises
IndexError on ridx[0]. -/
def mergeFind (st1 : BState) (rel : String) (answers : Answers) : Option BState :=
  match findIdxA (fun r => r.keyIs rel) st1.table.rows with
  | some i =>
      some { st1 with table := { st1.table with
        rows := st1.table.rows.set i
          (writeRow (st1.table.rows.getD i defaultRow) st1.allKeys answers) } }
  | none =>
      let t2 : Table := { st1.table with rows := st1.table.rows ++
        [{ key := if "file" ∈ st1.allKeys then PVal.vstr "" else PVal.vstr rel, cells := [] }] }
      match findIdxA (fun r => r.keyIs rel) t2.rows with
      | some i =>
          some { st1 with table := { t2 with
            rows := t2.rows.set i (writeRow (t2.rows.getD i defaultRow) st1.allKeys answers) } }
      | none => none

/-- One iteration of the streaming merge loop of stream_files, for a
completed future (rel, answers): compute the sorted fresh keys, add a
column for each (current_df[kf] = empty string), union them into
all_keys, then locate the row for rel and write the answers into it. -/
def mergeOne (st : BState) (rel : String) (answers : Answers) : Option BState :=
  mergeFind
    { table := (newKeysOf st.allKeys answers).foldl addColumn st.table,
      allKeys := st.allKeys ++ newKeysOf st.allKeys answers }
    rel answers

/-- The state at the start of the streaming loop: one row per element of
file_list in input order (flat_df copied to current_df) and an empty
all_keys set. -/
def initState (file_list : List String) : BState :=
  { table := { rows := file_list.map (fun f => { key := .vstr f, cells := [] }), dynCols := [] },
    allKeys := [] }

/-- The as_completed loop: fold the merge step over the completed items
in completion order, stopping with none when a merge raises. -/
def runMerges : BState → List (String × AIOutcome) → Option BState
  | st, [] => some st
  | st, c :: rest =>
      let pr := process_one c.1 c.2
      match mergeOne st pr.1 pr.2 with
      | none => none
      | some st1 => runMerges st1 rest

/-- A fatal outcome of the coordinator: the thread-pool constructor
rejects a non-positive worker count (ValueError, raised before any item
is dispatched), or the merge loop raises IndexError. -/
inductive StreamError where
  | poolValueError
  | indexError

/-- The coordinator with an explicit worker-pool size: the pool
constructor rejects a non-positive size before any work is dispatched
(concurrent.futures raises ValueError); otherwise the items are
dispatched and the merges are folded in completion order.  The completion
order is an argument: any permutation of the input items. -/
def stream_files_pool (w : Int) (file_list : List String)
    (completions : List (String × AIOutcome)) : Except StreamError Table :=
  if w ≤ 0 then .error .poolValueError
  else
    match runMerges (initState file_list) completions with
    | some st => .ok st.table
    | none => .error .indexError

/-- stream_files from the source: the pool size is computed from the host
cpu count, clamped into the range two to eight. -/
def stream_files (cpu_count : Option Nat) (file_list : List String)
    (completions : List (String × AIOutcome)) : Except StreamError Table :=
  stream_files_pool (max_workers cpu_count) file_list completions

/-- The first row whose file cell equals x, as the final table is keyed. -/
def findRow (t : Table) (x : String) : Option Row :=
  t.rows.find? (fun r => r.keyIs x)

/- ────────────────────────────────────────────────────────────
   Specification bookkeeping for the streaming run (proof
   infrastructure over the definitions above).
   ──────────────────────────────────────────────────────────── -/

/-- The answers the processed prefix of the run delivered for item x
(empty when x has not completed yet). -/
def ansFor (processed : List (String × AIOutcome)) (x : String) : Answers :=
  match processed.find? (fun c => c.1 == x) with
  | some c => answersOf c.2
  | none => []

/-- The per-row property maintained by the run: the row of item x keeps
the key x and its cells agree with the answers delivered for x. -/
def RowP (processed : List (String × AIOutcome)) (x : String) (r : Row) : Prop :=
  r.key = .vstr x ∧ ∀ kf, List.lookup kf r.cells = List.lookup kf (ansFor processed x)

/-- Pointwise property of the row list against the item list. -/
def RowsOK (P : String → Row → Prop) : List String → List Row → Prop
  | [], [] => True
  | x :: fl, r :: rows => P x r ∧ RowsOK P fl rows
  | _, _ => False

/-- The loop invariant of the streaming run after the completions in
processed have been merged. -/
def Inv (fl : List String) (processed : List (String × AIOutcome)) (st : BState) : Prop :=
  RowsOK (RowP processed) fl st.table.rows
  ∧ st.allKeys = st.table.dynCols
  ∧ st.table.dynCols.Nodup
  ∧ "file" ∉ st.table.dynCols
  ∧ (∀ kf, kf ∈ st.table.dynCols ↔ ∃ c ∈ processed, kf ∈ (answersOf c.2).map Prod.fst)

/- ────────────────────────────────────────────────────────────
   Helper lemmas.
   ──────────────────────────────────────────────────────────── -/

theorem max_workers_bounds (c : Option Nat) : 2 ≤ max_workers c ∧ max_workers c ≤ 8 := by
  unfold max_workers
  omega

theorem lookup_cons_self {β : Type} (k : String) (v : β) (l : List (String × β)) :
    List.lookup k ((k, v) :: l) = some v := by
  simp [List.lookup]

theorem lookup_cons_ne {β : Type} {k a : String} (v : β) (l : List (String × β)) (h : k ≠ a) :
    List.lookup k ((a, v) :: l) = List.lookup k l := by
  simp only [List.lookup]
  rw [beq_eq_false_iff_ne.mpr h]

theorem bool_ne_true {b : Bool} (h : b = false) : ¬(b = true) := by
  simp [h]

theorem lookup_mem_keys {ans : Answers} {kf : String} {v : PVal}
    (h : List.lookup kf ans = some v) : kf ∈ ans.map Prod.fst := by
  induction ans with
  | nil => simp [List.lookup] at h
  | cons kv rest ih =>
      by_cases hk : kf = kv.1
      · subst hk; simp
      · obtain ⟨a, b⟩ := kv
        rw [lookup_cons_ne b rest hk] at h
        simp [ih h]

theorem eq_nil_of_lookup_none {l : Answers} (h : ∀ k, List.lookup k l = none) : l = [] := by
  cases l with
  | nil => rfl
  | cons kv rest =>
      have := h kv.1
      obtain ⟨a, b⟩ := kv
      rw [lookup_cons_self] at this
      exact absurd this (by simp)

theorem lookup_assocSet_self (l : Answers) (k : String) (v : PVal) :
    List.lookup k (assocSet l k v) = some v := by
  induction l with
  | nil => simp [assocSet, List.lookup]
  | cons kv rest ih =>
      obtain ⟨a, b⟩ := kv
      by_cases ha : a = k
      · subst ha; simp [assocSet, lookup_cons_self]
      · have : (a == k) = false := beq_eq_false_iff_ne.mpr ha
        simp only [assocSet, this, Bool.false_eq_true, if_false]
        rw [lookup_cons_ne b _ (fun hh => ha hh.symm)]
        exact ih

theorem lookup_assocSet_ne {q k : String} (l : Answers) (v : PVal) (h : q ≠ k) :
    List.lookup q (assocSet l k v) = List.lookup q l := by
  induction l with
  | nil =>
      show List.lookup q [(k, v)] = List.lookup q []
      rw [lookup_cons_ne v [] h]
  | cons kv rest ih =>
      obtain ⟨a, b⟩ := kv
      by_cases ha : a = k
      · subst ha
        simp only [assocSet, beq_self_eq_true, if_true]
        by_cases hqa : q = a
        · exact absurd hqa h
        · rw [lookup_cons_ne v rest hqa, lookup_cons_ne b rest hqa]
      · have : (a == k) = false := beq_eq_false_iff_ne.mpr ha
        simp only [assocSet, this, Bool.false_eq_true, if_false]
        by_cases hqa : q = a
        · subst hqa; simp [lookup_cons_self]
        · rw [lookup_cons_ne b _ hqa, lookup_cons_ne b rest hqa]
          exact ih

/- ────────────────────────────────────────────────────────────
   Claim C5 (worker-pool clamp).
   ──────────────────────────────────────────────────────────── -/

/-- Claim C5: the worker-pool size of the coordinator is computed from
the host cpu count (with 4 substituted when the count is unavailable or
zero) and is always between 2 and 8 inclusive. -/
theorem claim_C5 : ∀ cpu_count : Option Nat,
    2 ≤ max_workers cpu_count ∧ max_workers cpu_count ≤ 8 :=
  fun c => max_workers_bounds c

/- ────────────────────────────────────────────────────────────
   Claim C6 (fatal conditions of the coordinator).
   ──────────────────────────────────────────────────────────── -/

/-- Claim C6, counterexample: a run with a strictly positive worker-pool
size is nevertheless fatal (the merge loop raises IndexError when an
answer contains a field named file), so a non-positive concurrency limit
is not the only fatal condition of the batch coordinator. -/
theorem claim_C6_counterexample :
    stream_files_pool 4 ["a", "b"]
      [("b", .ok (some [("file", .vstr "v")])), ("a", .ok none)] = .error .indexError ∧
    ¬ ((4 : Int) ≤ 0) := by
  exact ⟨rfl, by norm_num⟩

/-- Claim C6, amended: a non-positive worker-pool size makes the
coordinator fail fast before dispatching any work item, and the pool size
the coordinator actually computes is always at least 2, so that failure
cannot occur; it is however not the only fatal condition (see the
counterexample). -/
theorem claim_C6_amended :
    (∀ (w : Int) (fl : List String) (comps : List (String × AIOutcome)),
        w ≤ 0 → stream_files_pool w fl comps = .error .poolValueError) ∧
    (∀ cpu_count : Option Nat, 2 ≤ max_workers cpu_count) := by
  constructor
  · intro w fl comps hw
    unfold stream_files_pool
    rw [if_pos hw]
  · intro c
    exact (max_workers_bounds c).1

/-- Claim C6, witness for the amended statement at pool size 0. -/
theorem claim_C6_witness :
    stream_files_pool 0 ["a"] [] = .error .poolValueError ∧ 2 ≤ max_workers none :=
  ⟨claim_C6_amended.1 0 ["a"] [] (by norm_num), claim_C6_amended.2 none⟩

/- ────────────────────────────────────────────────────────────
   Claim C9 (stringification of table cells).
   ──────────────────────────────────────────────────────────── -/

/-- Claim C9, counterexample: stringify renders the list [1, 2] with the
json.dumps default separators (comma-space), which differs from the
compact JSON text of that list, so list and map values are not rendered
as compact JSON. -/
theorem claim_C9_counterexample :
    stringify (.pv (.vlist [.vint 1, .vint 2])) = "[1, 2]" ∧
    jsonCompact (.vlist [.vint 1, .vint 2]) = "[1,2]" ∧
    ("[1, 2]" : String) ≠ "[1,2]" :=
  ⟨rfl, rfl, by decide⟩

/-- Claim C9, amended: for every cell value rendered or exported from the
result table, stringify maps a list or map value to single-line JSON text
with the json.dumps default separators (comma-space and colon-space, not
the compact separators), a bytes value to a byte-count placeholder, None
to the empty string, and plain scalars to their Python string form; and
to_display_df applies stringify to every cell. -/
theorem claim_C9_amended :
    (∀ xs, stringify (.pv (.vlist xs)) = jsonDumpsWith ", " ": " (.vlist xs)) ∧
    (∀ kvs, stringify (.pv (.vdict kvs)) = jsonDumpsWith ", " ": " (.vdict kvs)) ∧
    (∀ bs : List Nat, stringify (.pybytes bs) = "<" ++ toString bs.length ++ " bytes>") ∧
    stringify (.pv .vnull) = "" ∧
    (∀ n : Int, stringify (.pv (.vint n)) = toString n) ∧
    (∀ s, stringify (.pv (.vstr s)) = s) ∧
    (∀ b, stringify (.pv (.vbool b)) = if b then "True" else "False") ∧
    (∀ df, to_display_df df = df.map (fun row => row.map stringify)) :=
  ⟨fun _ => rfl, fun _ => rfl, fun _ => rfl, rfl, fun _ => rfl, fun _ => rfl,
   fun _ => rfl, fun _ => rfl⟩

/- ────────────────────────────────────────────────────────────
   Claim C7 (classification retry loop).
   ──────────────────────────────────────────────────────────── -/

theorem classifyRunAux_falsy (l : List ClassifyOutcome) : ∀ le,
    (pyFalsyStrOpt (classifyRunAux l le).1 = true ↔
      (l.all attemptRaises = true ∨ ∃ v, firstReturn l = some v ∧ pyFalsyStrOpt v = true)) := by
  induction l with
  | nil =>
      intro le
      simp [classifyRunAux, firstReturn, pyFalsyStrOpt]
  | cons o rest ih =>
      intro le
      cases o with
      | returns v =>
          simp [classifyRunAux, firstReturn, attemptRaises]
      | raises m =>
          simpa [classifyRunAux, firstReturn, attemptRaises] using ih (some m)

theorem classifyRunAux_sleeps (l : List ClassifyOutcome) : ∀ le,
    (∀ d ∈ (classifyRunAux l le).2.2, d = (1 / 2 : ℚ)) ∧
      (classifyRunAux l le).2.2.length ≤ l.length := by
  induction l with
  | nil => intro le; simp [classifyRunAux]
  | cons o rest ih =>
      intro le
      cases o with
      | returns v => simp [classifyRunAux]
      | raises m =>
          obtain ⟨h1, h2⟩ := ih (some m)
          constructor
          · intro d hd
            simp only [classifyRunAux, List.mem_cons] at hd
            rcases hd with h | h
            · exact h
            · exact h1 d h
          · simpa [classifyRunAux] using h2

/-- Claim C7, counterexample: a first classify attempt that succeeds but
returns a NULL class still halts the run with the error box, although not
all five attempts failed, so the halt is not equivalent to all five
attempts failing. -/
theorem claim_C7_counterexample :
    (∃ e, classifyPage "SELECT 1"
        [.returns none, .returns (some "A"), .returns (some "A"), .returns (some "A"),
         .returns (some "A")] = .error e) ∧
    ([ClassifyOutcome.returns none, .returns (some "A"), .returns (some "A"),
      .returns (some "A"), .returns (some "A")].all attemptRaises = false) :=
  ⟨⟨("Classification failed after 5 attempts. Last error: None", "SELECT 1"), rfl⟩, rfl⟩

/-- Claim C7, amended: over the five attempts of the loop, the run halts
with a user-visible error carrying the failing query text exactly when
either every attempt raises or the first non-raising attempt returns a
NULL or empty class; each failed attempt sleeps a fixed 0.5 seconds, and
at most five sleeps occur. -/
theorem claim_C7_amended (classifySql : String) (outcomes : List ClassifyOutcome)
    (hlen : outcomes.length = 5) :
    ((∃ e, classifyPage classifySql outcomes = .error e) ↔
      (outcomes.all attemptRaises = true ∨
        ∃ v, firstReturn outcomes = some v ∧ pyFalsyStrOpt v = true)) ∧
    (∀ e, classifyPage classifySql outcomes = .error e → e.2 = classifySql) ∧
    (∀ d ∈ (classify_retry outcomes).2.2, d = (1 / 2 : ℚ)) ∧
    (classify_retry outcomes).2.2.length ≤ 5 := by
  have htake : outcomes.take 5 = outcomes := by rw [← hlen, List.take_length]
  have hr : classify_retry outcomes = classifyRunAux outcomes none := by
    unfold classify_retry; rw [htake]
  have hchar := classifyRunAux_falsy outcomes none
  have hsl := classifyRunAux_sleeps outcomes none
  by_cases hf : pyFalsyStrOpt (classifyRunAux outcomes none).1 = true
  · have hpage : classifyPage classifySql outcomes =
        .error ("Classification failed after 5 attempts. Last error: "
          ++ pyFormatOptStr (classifyRunAux outcomes none).2.1, classifySql) := by
      unfold classifyPage
      rw [hr, if_pos hf]
    refine ⟨iff_of_true ⟨_, hpage⟩ (hchar.mp hf), ?_, ?_, ?_⟩
    · intro e he
      rw [hpage] at he
      simp only [Except.error.injEq] at he
      rw [← he]
    · rw [hr]; exact hsl.1
    · rw [hr]; exact hlen ▸ hsl.2
  · have hpage : classifyPage classifySql outcomes =
        .ok ((classifyRunAux outcomes none).1.getD "") := by
      unfold classifyPage
      rw [hr, if_neg hf]
    refine ⟨iff_of_false ?_ ?_, ?_, ?_, ?_⟩
    · rintro ⟨e, he⟩
      rw [hpage] at he
      exact absurd he (by simp)
    · intro hcontra
      exact hf (hchar.mpr hcontra)
    · intro e he
      rw [hpage] at he
      exact absurd he (by simp)
    · rw [hr]; exact hsl.1
    · rw [hr]; exact hlen ▸ hsl.2

/-- Claim C7, witness: five raising attempts halt the run. -/
theorem claim_C7_witness :
    ([ClassifyOutcome.raises "x", .raises "x", .raises "x", .raises "x",
      .raises "x"] : List ClassifyOutcome).length = 5 ∧
    (∃ e, classifyPage "SELECT 1"
        [.raises "x", .raises "x", .raises "x", .raises "x", .raises "x"] = .error e) :=
  ⟨rfl, ((claim_C7_amended "SELECT 1"
      [.raises "x", .raises "x", .raises "x", .raises "x", .raises "x"] rfl).1).mpr
    (Or.inl rfl)⟩

/- ────────────────────────────────────────────────────────────
   Python strip: idempotence.
   ──────────────────────────────────────────────────────────── -/

theorem dropWhile_head_false (p : Char → Bool) :
    ∀ (l : List Char) (a : Char), (l.dropWhile p).head? = some a → p a = false := by
  intro l
  induction l with
  | nil => intro a h; simp [List.dropWhile] at h
  | cons x xs ih =>
      intro a h
      cases hpx : p x with
      | true =>
          rw [List.dropWhile_cons, if_pos hpx] at h
          exact ih a h
      | false =>
          rw [List.dropWhile_cons, if_neg (by simp [hpx])] at h
          simp only [List.head?_cons, Option.some.injEq] at h
          rw [← h]
          exact hpx

theorem dropWhile_eq_self_of_head {p : Char → Bool} (l : List Char)
    (h : ∀ a, l.head? = some a → p a = false) : l.dropWhile p = l := by
  cases l with
  | nil => rfl
  | cons x xs =>
      rw [List.dropWhile_cons, if_neg (by simp [h x rfl])]

theorem exists_append_dropWhile (p : Char → Bool) (l : List Char) :
    ∃ t, t ++ l.dropWhile p = l := by
  induction l with
  | nil => exact ⟨[], rfl⟩
  | cons x xs ih =>
      cases hpx : p x with
      | false => exact ⟨[], by rw [List.dropWhile_cons, if_neg (by simp [hpx])]; rfl⟩
      | true =>
          obtain ⟨t, ht⟩ := ih
          exact ⟨x :: t, by rw [List.dropWhile_cons, if_pos hpx, List.cons_append, ht]⟩

theorem pyStripList_idem (l : List Char) : pyStripList (pyStripList l) = pyStripList l := by
  unfold pyStripList
  have hstep1 : ((((l.dropWhile pySpace).reverse.dropWhile pySpace).reverse).dropWhile pySpace)
      = ((l.dropWhile pySpace).reverse.dropWhile pySpace).reverse := by
    apply dropWhile_eq_self_of_head
    intro a ha
    obtain ⟨t, ht⟩ := exists_append_dropWhile pySpace (l.dropWhile pySpace).reverse
    have hm2 : l.dropWhile pySpace =
        ((l.dropWhile pySpace).reverse.dropWhile pySpace).reverse ++ t.reverse := by
      have h0 := congrArg List.reverse ht
      simpa [List.reverse_append] using h0.symm
    cases hdr : ((l.dropWhile pySpace).reverse.dropWhile pySpace).reverse with
    | nil => rw [hdr] at ha; simp at ha
    | cons b rest =>
        rw [hdr] at ha
        simp only [List.head?_cons, Option.some.injEq] at ha
        have hmh : (l.dropWhile pySpace).head? = some b := by
          rw [hm2, hdr]; simp
        have hb := dropWhile_head_false pySpace l b hmh
        rw [← ha]
        exact hb
  have hstep2 : ((l.dropWhile pySpace).reverse.dropWhile pySpace).dropWhile pySpace
      = (l.dropWhile pySpace).reverse.dropWhile pySpace := by
    apply dropWhile_eq_self_of_head
    intro a ha
    exact dropWhile_head_false pySpace (l.dropWhile pySpace).reverse a ha
  rw [hstep1, List.reverse_reverse, hstep2]

theorem pyStrip_idem (s : String) : pyStrip (pyStrip s) = pyStrip s := by
  unfold pyStrip
  rw [show (String.mk (pyStripList s.data)).data = pyStripList s.data from rfl, pyStripList_idem]

/- ────────────────────────────────────────────────────────────
   Canonicalization building blocks.
   ──────────────────────────────────────────────────────────── -/

theorem firstQ_prop {v : List (String × PVal)} {s : String} (h : firstQ v = some s) :
    pyStrip s = s ∧ (s == "") = false := by
  obtain ⟨kk, _, hf⟩ := List.exists_of_findSome?_eq_some h
  cases hlk : List.lookup kk v with
  | none => rw [hlk] at hf; simp at hf
  | some w =>
      rw [hlk] at hf
      cases w with
      | vstr s0 =>
          cases hb : (pyStrip s0 == "") with
          | true => simp [hb] at hf
          | false =>
              simp only [hb, Bool.false_eq_true, if_false, Option.some.injEq] at hf
              rw [← hf]
              exact ⟨pyStrip_idem s0, hb⟩
      | vnull => simp at hf
      | vbool b => simp at hf
      | vint n => simp at hf
      | vlist xs => simp at hf
      | vdict kvs => simp at hf

theorem stripEntry_prop {w : PVal} {s : String} (h : stripEntry w = some s) :
    pyStrip s = s ∧ (s == "") = false := by
  cases w with
  | vstr s0 =>
      unfold stripEntry at h
      cases hb : (pyStrip s0 == "") with
      | true => simp [hb] at h
      | false =>
          simp only [hb, Bool.false_eq_true, if_false, Option.some.injEq] at h
          rw [← h]
          exact ⟨pyStrip_idem s0, hb⟩
  | vdict v => exact firstQ_prop h
  | vnull => simp [stripEntry] at h
  | vbool b => simp [stripEntry] at h
  | vint n => simp [stripEntry] at h
  | vlist xs => simp [stripEntry] at h

theorem buildFlat_entries {kvs : List (String × PVal)} {kv : String × PVal}
    (h : kv ∈ buildFlat kvs) :
    ∃ s, kv.2 = PVal.vstr s ∧ pyStrip s = s ∧ (s == "") = false := by
  unfold buildFlat at h
  obtain ⟨a, _, hfa⟩ := List.mem_filterMap.mp h
  obtain ⟨s, hs, hmap⟩ := Option.map_eq_some'.mp hfa
  obtain ⟨h1, h2⟩ := stripEntry_prop hs
  refine ⟨s, ?_, h1, h2⟩
  rw [← hmap]

theorem buildFlat_fixed : ∀ flat : List (String × PVal),
    (∀ kv ∈ flat, ∃ s, kv.2 = PVal.vstr s ∧ pyStrip s = s ∧ (s == "") = false) →
    buildFlat flat = flat := by
  intro flat
  induction flat with
  | nil => intro _; rfl
  | cons kv rest ih =>
      intro h
      obtain ⟨s, hs, hstr, hnb⟩ := h kv (List.mem_cons_self kv rest)
      have hrest := ih (fun x hx => h x (List.mem_cons_of_mem kv hx))
      have hkv : kv = (kv.1, PVal.vstr s) := by
        rw [← hs]
      have hse : stripEntry kv.2 = some s := by
        rw [hs]
        show (if (pyStrip s == "") = true then none else some (pyStrip s)) = some s
        rw [hstr, hnb]
        simp
      unfold buildFlat
      rw [List.filterMap_cons, hse]
      unfold buildFlat at hrest
      rw [hrest]
      simp only [Option.map_some']
      rw [← hkv]

theorem lookup_mem_vals {β : Type} :
    ∀ {l : List (String × β)} {k : String} {v : β},
      List.lookup k l = some v → ∃ k2, (k2, v) ∈ l := by
  intro l
  induction l with
  | nil => intro k v h; simp [List.lookup] at h
  | cons kv rest ih =>
      intro k v h
      obtain ⟨a, b⟩ := kv
      by_cases hk : k = a
      · rw [hk, lookup_cons_self] at h
        simp only [Option.some.injEq] at h
        exact ⟨a, by rw [← h]; exact List.mem_cons_self _ _⟩
      · rw [lookup_cons_ne b rest hk] at h
        obtain ⟨k2, hk2⟩ := ih h
        exact ⟨k2, List.mem_cons_of_mem _ hk2⟩

theorem specialSingle_of_strings {flat : List (String × PVal)} {c : Option String}
    (h : ∀ kv ∈ flat, ∃ s, kv.2 = PVal.vstr s) : specialSingle flat c = none := by
  unfold specialSingle
  by_cases h1 : (flat.length == 1) = true
  · rw [if_pos h1]
    by_cases h2 : truthyName c = true
    · rw [if_pos h2]
      cases hlk : List.lookup (classNameOrEmpty c) flat with
      | none => rfl
      | some w =>
          obtain ⟨k2, hmem⟩ := lookup_mem_vals hlk
          obtain ⟨s, hs⟩ := h (k2, w) hmem
          rw [show w = PVal.vstr s from hs]
    · rw [if_neg h2]
  · rw [if_neg h1]

theorem specialSingle_some {kvs : List (String × PVal)} {c : Option String} {r : PVal}
    (h : specialSingle kvs c = some r) : ∃ s, r = PVal.vlist [.vstr "q", .vstr s] := by
  unfold specialSingle at h
  by_cases h1 : (kvs.length == 1) = true
  · rw [if_pos h1] at h
    by_cases h2 : truthyName c = true
    · rw [if_pos h2] at h
      cases hlk : List.lookup (classNameOrEmpty c) kvs with
      | none => rw [hlk] at h; exact absurd h (by simp)
      | some w =>
          rw [hlk] at h
          cases w with
          | vdict v =>
              obtain ⟨s, _, hmap⟩ := Option.map_eq_some'.mp h
              exact ⟨s, hmap.symm⟩
          | vnull => exact absurd h (by simp)
          | vbool b => exact absurd h (by simp)
          | vint n => exact absurd h (by simp)
          | vstr s => exact absurd h (by simp)
          | vlist xs => exact absurd h (by simp)
    · rw [if_neg h2] at h; exact absurd h (by simp)
  · rw [if_neg h1] at h; exact absurd h (by simp)

/- ────────────────────────────────────────────────────────────
   Claim C10 (canonicalization is idempotent).
   ──────────────────────────────────────────────────────────── -/

theorem canonicalize_vdict_some {kvs : List (String × PVal)} {c : Option String} {r : PVal}
    (hs : specialSingle kvs c = some r) :
    canonicalize_for_storage (.vdict kvs) c = r := by
  show (match specialSingle kvs c with
        | some r0 => r0
        | none =>
            let flat := buildFlat kvs
            if flat.isEmpty then genericPrompt c else PVal.vdict flat) = r
  rw [hs]

theorem canonicalize_vdict_none {kvs : List (String × PVal)} {c : Option String}
    (hs : specialSingle kvs c = none) :
    canonicalize_for_storage (.vdict kvs) c =
      if (buildFlat kvs).isEmpty then genericPrompt c else .vdict (buildFlat kvs) := by
  show (match specialSingle kvs c with
        | some r0 => r0
        | none =>
            let flat := buildFlat kvs
            if flat.isEmpty then genericPrompt c else PVal.vdict flat) =
      if (buildFlat kvs).isEmpty then genericPrompt c else .vdict (buildFlat kvs)
  rw [hs]

/-- Claim C10: prompt canonicalization is idempotent; every output of
canonicalize_for_storage (a returned list, a flat map of non-empty
stripped question strings, or the generic fallback) is a fixed point. -/
theorem claim_C10 (p : PVal) (c : Option String) :
    canonicalize_for_storage (canonicalize_for_storage p c) c =
      canonicalize_for_storage p c := by
  cases p with
  | vlist xs => rfl
  | vnull => rfl
  | vbool b => rfl
  | vint n => rfl
  | vstr s => rfl
  | vdict kvs =>
      cases hs : specialSingle kvs c with
      | some r =>
          obtain ⟨s, hr⟩ := specialSingle_some hs
          rw [canonicalize_vdict_some hs, hr]
          rfl
      | none =>
          by_cases he : (buildFlat kvs).isEmpty = true
          · rw [canonicalize_vdict_none hs, if_pos he]
            rfl
          · rw [canonicalize_vdict_none hs, if_neg he]
            have hent := fun kv (hkv : kv ∈ buildFlat kvs) => buildFlat_entries hkv
            have hsp : specialSingle (buildFlat kvs) c = none :=
              specialSingle_of_strings (fun kv hkv =>
                ⟨(hent kv hkv).choose, (hent kv hkv).choose_spec.1⟩)
            have hbf : buildFlat (buildFlat kvs) = buildFlat kvs :=
              buildFlat_fixed (buildFlat kvs) hent
            rw [canonicalize_vdict_none hsp, hbf, if_neg he]

/-- Claim C10, witness: the theorem applied at a concrete prompts object. -/
theorem claim_C10_witness :
    canonicalize_for_storage
        (canonicalize_for_storage (.vdict [("a", .vstr "  what is a?  ")]) (some "inv"))
        (some "inv") =
      canonicalize_for_storage (.vdict [("a", .vstr "  what is a?  ")]) (some "inv") :=
  claim_C10 (.vdict [("a", .vstr "  what is a?  ")]) (some "inv")

/- ────────────────────────────────────────────────────────────
   Claim C8 (malformed stored prompts).
   ──────────────────────────────────────────────────────────── -/

/-- Claim C8, counterexample: a stored payload that is valid JSON but not
a usable field-to-question mapping (the number 42) is loaded as itself,
not as the empty schema. -/
theorem claim_C8_counterexample :
    load_prompts_obj (some "invoice") (.cell (.rstr (some (.vint 42)))) = .vint 42 ∧
    PVal.vint 42 ≠ PVal.vdict [] :=
  ⟨rfl, fun h => PVal.noConfusion h⟩

/-- Claim C8, amended: a stored payload that is not valid JSON loads as
the empty schema, and normalizing the empty schema (like every non-list
non-dict payload, which load_prompts_obj passes through unchanged) falls
back to the generic single free-form question for the class. -/
theorem claim_C8_amended : ∀ c : Option String,
    load_prompts_obj c (.cell (.rstr none)) = .vdict [] ∧
    canonicalize_for_storage (.vdict []) c = genericPrompt c ∧
    (∀ n : Int, canonicalize_for_storage (.vint n) c = genericPrompt c) ∧
    (∀ s, canonicalize_for_storage (.vstr s) c = genericPrompt c) ∧
    canonicalize_for_storage .vnull c = genericPrompt c ∧
    normalize_for_extract (.vdict []) c = genericPrompt c := by
  intro c
  refine ⟨?_, rfl, fun n => rfl, fun s => rfl, rfl, rfl⟩
  cases htc : truthyName c <;> simp [load_prompts_obj, htc]

/- ────────────────────────────────────────────────────────────
   Sorting and set helpers of the coordinator.
   ──────────────────────────────────────────────────────────── -/

theorem insertSorted_perm (x : String) (l : List String) :
    List.Perm (insertSorted x l) (x :: l) := by
  induction l with
  | nil => exact List.Perm.refl _
  | cons y ys ih =>
      unfold insertSorted
      by_cases h : strLeB x y = true
      · rw [if_pos h]
      · rw [if_neg h]
        exact (ih.cons y).trans (List.Perm.swap x y ys)

theorem pySorted_perm (l : List String) : List.Perm (pySorted l) l := by
  induction l with
  | nil => exact List.Perm.refl _
  | cons x xs ih => exact (insertSorted_perm x (pySorted xs)).trans (ih.cons x)

theorem mem_pySorted {q : String} {l : List String} : q ∈ pySorted l ↔ q ∈ l :=
  (pySorted_perm l).mem_iff

theorem nodup_pySorted {l : List String} (h : l.Nodup) : (pySorted l).Nodup :=
  (pySorted_perm l).nodup_iff.mpr h

theorem mem_dedupA {q : String} : ∀ {l : List String}, q ∈ dedupA l ↔ q ∈ l := by
  intro l
  induction l with
  | nil => simp [dedupA]
  | cons x xs ih =>
      unfold dedupA
      by_cases h : x ∈ xs
      · rw [if_pos h, ih]
        constructor
        · exact fun hq => List.mem_cons_of_mem x hq
        · intro hq
          rcases List.mem_cons.mp hq with h1 | h1
          · rw [h1]; exact h
          · exact h1
      · rw [if_neg h]
        simp [List.mem_cons, ih]

theorem nodup_dedupA : ∀ l : List String, (dedupA l).Nodup := by
  intro l
  induction l with
  | nil => exact List.nodup_nil
  | cons x xs ih =>
      unfold dedupA
      by_cases h : x ∈ xs
      · rw [if_pos h]; exact ih
      · rw [if_neg h]
        exact List.nodup_cons.mpr ⟨fun hq => h (mem_dedupA.mp hq), ih⟩

/- ────────────────────────────────────────────────────────────
   writeRow and setCell lemmas.
   ──────────────────────────────────────────────────────────── -/

theorem setCell_file (r : Row) (v : PVal) : setCell r "file" v = { r with key := v } := by
  unfold setCell
  simp

theorem setCell_ne {kf : String} (hkf : kf ≠ "file") (r : Row) (v : PVal) :
    setCell r kf v = { r with cells := assocSet r.cells kf v } := by
  unfold setCell
  rw [if_neg (by simp [hkf])]

theorem writeRow_nil (r : Row) (ans : Answers) : writeRow r [] ans = r := rfl

theorem writeRow_cons_none {kf : String} {ans : Answers} (r : Row) (ks : List String)
    (h : List.lookup kf ans = none) :
    writeRow r (kf :: ks) ans = writeRow r ks ans := by
  simp only [writeRow, List.foldl_cons, h]

theorem writeRow_cons_some {kf : String} {ans : Answers} {v : PVal} (r : Row) (ks : List String)
    (h : List.lookup kf ans = some v) :
    writeRow r (kf :: ks) ans = writeRow (setCell r kf v) ks ans := by
  simp only [writeRow, List.foldl_cons, h]

theorem writeRow_key {ans : Answers} (hfile : "file" ∉ ans.map Prod.fst) :
    ∀ (ks : List String) (r : Row), (writeRow r ks ans).key = r.key := by
  intro ks
  induction ks with
  | nil => intro r; rfl
  | cons kf ks ih =>
      intro r
      cases hlk : List.lookup kf ans with
      | none => rw [writeRow_cons_none r ks hlk]; exact ih r
      | some v =>
          have hkf : kf ≠ "file" := fun hh => hfile (hh ▸ lookup_mem_keys hlk)
          rw [writeRow_cons_some r ks hlk, ih, setCell_ne hkf]

theorem writeRow_cells_not_mem {ans : Answers} {q : String} :
    ∀ (ks : List String) (r : Row), q ∉ ks →
      List.lookup q (writeRow r ks ans).cells = List.lookup q r.cells := by
  intro ks
  induction ks with
  | nil => intro r _; rfl
  | cons kf ks ih =>
      intro r hq
      have hqkf : q ≠ kf := fun h => hq (h ▸ List.mem_cons_self kf ks)
      have hq2 : q ∉ ks := fun h => hq (List.mem_cons_of_mem kf h)
      cases hlk : List.lookup kf ans with
      | none => rw [writeRow_cons_none r ks hlk]; exact ih r hq2
      | some v =>
          rw [writeRow_cons_some r ks hlk, ih _ hq2]
          by_cases hkf : kf = "file"
          · rw [hkf, setCell_file]
          · rw [setCell_ne hkf]
            exact lookup_assocSet_ne r.cells v hqkf

theorem writeRow_cells_file {ans : Answers} (hfile : "file" ∉ ans.map Prod.fst) :
    ∀ (ks : List String) (r : Row),
      List.lookup "file" (writeRow r ks ans).cells = List.lookup "file" r.cells := by
  intro ks
  induction ks with
  | nil => intro r; rfl
  | cons kf ks ih =>
      intro r
      cases hlk : List.lookup kf ans with
      | none => rw [writeRow_cons_none r ks hlk]; exact ih r
      | some v =>
          have hkf : kf ≠ "file" := fun hh => hfile (hh ▸ lookup_mem_keys hlk)
          rw [writeRow_cons_some r ks hlk, ih, setCell_ne hkf]
          exact lookup_assocSet_ne r.cells v (fun h => hkf h.symm)

theorem writeRow_cells_mem {ans : Answers} {q : String} (hq : q ≠ "file") :
    ∀ (ks : List String) (r : Row), ks.Nodup → q ∈ ks →
      List.lookup q (writeRow r ks ans).cells =
        (List.lookup q ans).or (List.lookup q r.cells) := by
  intro ks
  induction ks with
  | nil => intro r _ hmem; exact absurd hmem (List.not_mem_nil q)
  | cons kf ks ih =>
      intro r hnd hmem
      by_cases hqkf : q = kf
      · have hqks : q ∉ ks := by rw [hqkf]; exact (List.nodup_cons.mp hnd).1
        cases hlk : List.lookup q ans with
        | none =>
            have hlk2 : List.lookup kf ans = none := by rw [← hqkf]; exact hlk
            rw [writeRow_cons_none r ks hlk2, writeRow_cells_not_mem ks r hqks,
              Option.none_or]
        | some v =>
            have hlk2 : List.lookup kf ans = some v := by rw [← hqkf]; exact hlk
            have hkf : kf ≠ "file" := by rw [← hqkf]; exact hq
            rw [writeRow_cons_some r ks hlk2, writeRow_cells_not_mem ks _ hqks,
              setCell_ne hkf]
            show List.lookup q (assocSet r.cells kf v) = (some v).or (List.lookup q r.cells)
            rw [hqkf, lookup_assocSet_self]
            rfl
      · have hmem2 : q ∈ ks := by
          rcases List.mem_cons.mp hmem with h | h
          · exact absurd h hqkf
          · exact h
        have hnd2 := (List.nodup_cons.mp hnd).2
        cases hlk : List.lookup kf ans with
        | none => rw [writeRow_cons_none r ks hlk]; exact ih r hnd2 hmem2
        | some v =>
            rw [writeRow_cons_some r ks hlk, ih _ hnd2 hmem2]
            by_cases hkf : kf = "file"
            · rw [hkf, setCell_file]
            · rw [setCell_ne hkf]
              show (List.lookup q ans).or (List.lookup q (assocSet r.cells kf v)) = _
              rw [lookup_assocSet_ne r.cells v hqkf]

theorem writeRow_cells_full {ans : Answers} (hfile : "file" ∉ ans.map Prod.fst)
    {ks : List String} (hnd : ks.Nodup) (hsub : ∀ kf ∈ ans.map Prod.fst, kf ∈ ks)
    {r : Row} (hbase : ∀ k, List.lookup k r.cells = none) :
    ∀ q, List.lookup q (writeRow r ks ans).cells = List.lookup q ans := by
  intro q
  by_cases hq : q = "file"
  · rw [hq, writeRow_cells_file hfile ks r, hbase]
    cases hfa : List.lookup "file" ans with
    | none => rfl
    | some v => exact absurd (lookup_mem_keys hfa) hfile
  · by_cases hmem : q ∈ ks
    · rw [writeRow_cells_mem hq ks r hnd hmem, hbase, Option.or_none]
    · rw [writeRow_cells_not_mem ks r hmem, hbase]
      cases hfa : List.lookup q ans with
      | none => rfl
      | some v => exact absurd (hsub q (lookup_mem_keys hfa)) hmem

/- ────────────────────────────────────────────────────────────
   addColumn lemmas.
   ──────────────────────────────────────────────────────────── -/

theorem addColumn_new {t : Table} {kf : String} (h1 : kf ≠ "file") (h2 : kf ∉ t.dynCols) :
    addColumn t kf = { t with dynCols := t.dynCols ++ [kf] } := by
  unfold addColumn
  rw [if_neg (by simp [h1]), if_neg h2]

theorem foldl_addColumn : ∀ (nk : List String) (t : Table), nk.Nodup → "file" ∉ nk →
    (∀ kf ∈ nk, kf ∉ t.dynCols) →
    nk.foldl addColumn t = { t with dynCols := t.dynCols ++ nk } := by
  intro nk
  induction nk with
  | nil =>
      intro t _ _ _
      show t = { t with dynCols := t.dynCols ++ [] }
      cases t
      simp
  | cons kf ks ih =>
      intro t hnd hfile hdisj
      have hkf : kf ≠ "file" := fun h => hfile (h ▸ List.mem_cons_self kf ks)
      rw [List.foldl_cons, addColumn_new hkf (hdisj kf (List.mem_cons_self kf ks))]
      rw [ih _ (List.nodup_cons.mp hnd).2 (fun h => hfile (List.mem_cons_of_mem kf h)) ?_]
      · simp
      · intro k hk
        simp only [List.mem_append, List.mem_singleton]
        rintro (h | h)
        · exact hdisj k (List.mem_cons_of_mem kf hk) h
        · exact (List.nodup_cons.mp hnd).1 (h ▸ hk)

/- ────────────────────────────────────────────────────────────
   RowsOK lemmas.
   ──────────────────────────────────────────────────────────── -/

theorem RowsOK_map_key {P : String → Row → Prop}
    (hkey : ∀ x r, P x r → r.key = PVal.vstr x) :
    ∀ {fl : List String} {rows : List Row}, RowsOK P fl rows →
      rows.map Row.key = fl.map PVal.vstr := by
  intro fl
  induction fl with
  | nil =>
      intro rows h
      cases rows with
      | nil => rfl
      | cons r rs => exact h.elim
  | cons x fl ih =>
      intro rows h
      cases rows with
      | nil => exact h.elim
      | cons r rs =>
          obtain ⟨h1, h2⟩ := h
          simp only [List.map_cons, hkey x r h1, ih h2]

theorem RowsOK_length {P : String → Row → Prop} :
    ∀ {fl : List String} {rows : List Row}, RowsOK P fl rows → rows.length = fl.length := by
  intro fl
  induction fl with
  | nil =>
      intro rows h
      cases rows with
      | nil => rfl
      | cons r rs => exact h.elim
  | cons x fl ih =>
      intro rows h
      cases rows with
      | nil => exact h.elim
      | cons r rs => simpa using ih h.2

theorem RowsOK_imp_of_ne {P Q : String → Row → Prop} {z : String}
    (hQ : ∀ x r, x ≠ z → P x r → Q x r) :
    ∀ {fl : List String} {rows : List Row}, z ∉ fl → RowsOK P fl rows → RowsOK Q fl rows := by
  intro fl
  induction fl with
  | nil =>
      intro rows _ h
      cases rows with
      | nil => trivial
      | cons r rs => exact h.elim
  | cons x fl ih =>
      intro rows hz h
      cases rows with
      | nil => exact h.elim
      | cons r rs =>
          obtain ⟨h1, h2⟩ := h
          have hx : x ≠ z := fun hh => hz (hh ▸ List.mem_cons_self x fl)
          exact ⟨hQ x r hx h1, ih (fun hh => hz (List.mem_cons_of_mem x hh)) h2⟩

theorem findR_cons (x : String) (r : Row) (rs : List Row) :
    List.find? (fun r => r.keyIs x) (r :: rs) =
      if r.keyIs x then some r else List.find? (fun r => r.keyIs x) rs := by
  cases h : r.keyIs x <;> simp [List.find?, h]

theorem RowsOK_find {P : String → Row → Prop} {x : String}
    (hkey : ∀ y r, P y r → r.key = PVal.vstr y) :
    ∀ {fl : List String} {rows : List Row}, RowsOK P fl rows → x ∈ fl →
      ∃ r, List.find? (fun r => r.keyIs x) rows = some r ∧ P x r := by
  intro fl
  induction fl with
  | nil => intro rows _ hx; exact absurd hx (List.not_mem_nil x)
  | cons y fl ih =>
      intro rows h hx
      cases rows with
      | nil => exact h.elim
      | cons r rs =>
          obtain ⟨h1, h2⟩ := h
          have hkr : r.keyIs x = (y == x) := by
            unfold Row.keyIs
            rw [hkey y r h1]
          by_cases hxy : y = x
          · refine ⟨r, ?_, hxy ▸ h1⟩
            rw [findR_cons, if_pos (show r.keyIs x = true by
              rw [hkr]; exact beq_iff_eq.mpr hxy)]
          · have hx2 : x ∈ fl := by
              rcases List.mem_cons.mp hx with h | h
              · exact absurd h.symm hxy
              · exact h
            obtain ⟨r2, hf, hP⟩ := ih h2 hx2
            refine ⟨r2, ?_, hP⟩
            rw [findR_cons, if_neg (bool_ne_true (show r.keyIs x = false by
              rw [hkr]; exact beq_eq_false_iff_ne.mpr hxy))]
            exact hf

theorem RowsOK_update {P Q : String → Row → Prop} {rel : String} {f : Row → Row}
    (hkey : ∀ y r, P y r → r.key = PVal.vstr y)
    (hQrel : ∀ r, P rel r → Q rel (f r))
    (hQoth : ∀ x r, x ≠ rel → P x r → Q x r) :
    ∀ {fl : List String} {rows : List Row}, RowsOK P fl rows → rel ∈ fl → fl.Nodup →
      ∃ i, findIdxA (fun r => r.keyIs rel) rows = some i ∧
        RowsOK Q fl (rows.set i (f (rows.getD i defaultRow))) := by
  intro fl
  induction fl with
  | nil => intro rows _ hrel _; exact absurd hrel (List.not_mem_nil rel)
  | cons y fl ih =>
      intro rows hOK hrel hnd
      cases rows with
      | nil => exact hOK.elim
      | cons r rs =>
          obtain ⟨h1, h2⟩ := hOK
          have hkr : r.keyIs rel = (y == rel) := by
            unfold Row.keyIs
            rw [hkey y r h1]
          by_cases hy : y = rel
          · have htrue : ((fun r : Row => r.keyIs rel) r) = true := by
              show r.keyIs rel = true
              rw [hkr]; exact beq_iff_eq.mpr hy
            refine ⟨0, ?_, ?_⟩
            · simp only [findIdxA, htrue, if_true]
            · show RowsOK Q (y :: fl) (f r :: rs)
              refine ⟨?_, ?_⟩
              · rw [hy]
                exact hQrel r (hy ▸ h1)
              · have hzfl : rel ∉ fl := hy ▸ (List.nodup_cons.mp hnd).1
                exact RowsOK_imp_of_ne hQoth hzfl h2
          · have hfalse : ((fun r : Row => r.keyIs rel) r) = false := by
              show r.keyIs rel = false
              rw [hkr]; exact beq_eq_false_iff_ne.mpr hy
            have hrel2 : rel ∈ fl := by
              rcases List.mem_cons.mp hrel with h | h
              · exact absurd h.symm hy
              · exact h
            obtain ⟨i, hfi, hOK2⟩ := ih h2 hrel2 (List.nodup_cons.mp hnd).2
            refine ⟨i + 1, ?_, ?_⟩
            · simp only [findIdxA, hfalse, Bool.false_eq_true, if_false, hfi, Option.map_some']
            · exact ⟨hQoth y r hy h1, hOK2⟩

/- ────────────────────────────────────────────────────────────
   ansFor lemmas.
   ──────────────────────────────────────────────────────────── -/

theorem findC_cons (x : String) (c : String × AIOutcome) (ps : List (String × AIOutcome)) :
    List.find? (fun c => c.1 == x) (c :: ps) =
      if c.1 == x then some c else List.find? (fun c => c.1 == x) ps := by
  cases h : (c.1 == x) <;> simp [List.find?, h]

theorem ansFor_cons (x : String) (c : String × AIOutcome) (ps : List (String × AIOutcome)) :
    ansFor (c :: ps) x = if c.1 == x then answersOf c.2 else ansFor ps x := by
  simp only [ansFor, findC_cons]
  cases h : (c.1 == x) <;> simp [h]

theorem ansFor_not_mem {x : String} :
    ∀ {processed : List (String × AIOutcome)}, x ∉ processed.map Prod.fst →
      ansFor processed x = [] := by
  intro processed
  induction processed with
  | nil => intro _; rfl
  | cons c ps ih =>
      intro h
      simp only [List.map_cons, List.mem_cons, not_or] at h
      have hx : c.1 ≠ x := fun hh => h.1 hh.symm
      rw [ansFor_cons, if_neg (bool_ne_true (beq_eq_false_iff_ne.mpr hx))]
      exact ih h.2

theorem ansFor_append_fresh {rel : String} {o : AIOutcome} {x : String} :
    ∀ {processed : List (String × AIOutcome)}, rel ∉ processed.map Prod.fst →
      ansFor (processed ++ [(rel, o)]) x =
        if x = rel then answersOf o else ansFor processed x := by
  intro processed
  induction processed with
  | nil =>
      intro _
      rw [List.nil_append, ansFor_cons]
      by_cases hx : x = rel
      · rw [if_pos (beq_iff_eq.mpr hx.symm), if_pos hx]
      · rw [if_neg (bool_ne_true (beq_eq_false_iff_ne.mpr (fun hh => hx hh.symm))), if_neg hx]
  | cons c ps ih =>
      intro h
      simp only [List.map_cons, List.mem_cons, not_or] at h
      have h2 : rel ∉ ps.map Prod.fst := h.2
      rw [List.cons_append, ansFor_cons, ansFor_cons]
      by_cases hc : (c.1 == x) = true
      · have hcx : c.1 = x := eq_of_beq hc
        have hx : x ≠ rel := fun hh => h.1 (hcx.trans hh).symm
        rw [if_pos hc, if_neg hx, if_pos hc]
      · have hcb : (c.1 == x) = false := by
          cases hcc : (c.1 == x) with
          | true => exact absurd hcc hc
          | false => rfl
        rw [if_neg (bool_ne_true hcb), if_neg (bool_ne_true hcb)]
        exact ih h2

theorem ansFor_mem {x : String} {o : AIOutcome} :
    ∀ {processed : List (String × AIOutcome)}, (processed.map Prod.fst).Nodup →
      (x, o) ∈ processed → ansFor processed x = answersOf o := by
  intro processed
  induction processed with
  | nil => intro _ hmem; exact absurd hmem (List.not_mem_nil _)
  | cons c ps ih =>
      intro hnd hmem
      rw [List.map_cons] at hnd
      have hnd2 := List.nodup_cons.mp hnd
      rcases List.mem_cons.mp hmem with h | h
      · rw [ansFor_cons, ← h]
        rw [if_pos (beq_iff_eq.mpr rfl)]
      · have hxps : x ∈ ps.map Prod.fst := List.mem_map.mpr ⟨(x, o), h, rfl⟩
        have hc : c.1 ≠ x := fun hh => hnd2.1 (hh ▸ hxps)
        rw [ansFor_cons, if_neg (bool_ne_true (beq_eq_false_iff_ne.mpr hc))]
        exact ih hnd2.2 h

/- ────────────────────────────────────────────────────────────
   The master invariant of the streaming run.
   ──────────────────────────────────────────────────────────── -/

theorem mergeFind_found {st1 : BState} {rel : String} {ans : Answers} {i : Nat}
    (h : findIdxA (fun r => r.keyIs rel) st1.table.rows = some i) :
    mergeFind st1 rel ans = some { st1 with table := { st1.table with
      rows := st1.table.rows.set i
        (writeRow (st1.table.rows.getD i defaultRow) st1.allKeys ans) } } := by
  unfold mergeFind
  rw [h]

theorem mergeOne_step {fl : List String} {processed : List (String × AIOutcome)} {st : BState}
    {rel : String} {o : AIOutcome}
    (hInv : Inv fl processed st) (hrel : rel ∈ fl) (hnd : fl.Nodup)
    (hfresh : rel ∉ processed.map Prod.fst)
    (hnofile : "file" ∉ (answersOf o).map Prod.fst) :
    ∃ st1, mergeOne st rel (answersOf o) = some st1 ∧
      Inv fl (processed ++ [(rel, o)]) st1 := by
  obtain ⟨hrows, hak, hndc, hfc, hcols⟩ := hInv
  have hnkmem : ∀ q, q ∈ newKeysOf st.allKeys (answersOf o) ↔
      q ∈ (answersOf o).map Prod.fst ∧ q ∉ st.allKeys := by
    intro q
    unfold newKeysOf
    rw [mem_pySorted, List.mem_filter, mem_dedupA]
    simp
  have hnknodup : (newKeysOf st.allKeys (answersOf o)).Nodup :=
    nodup_pySorted ((nodup_dedupA _).filter _)
  have hnkfile : "file" ∉ newKeysOf st.allKeys (answersOf o) :=
    fun h => hnofile ((hnkmem _).mp h).1
  have hnkdisj : ∀ kf ∈ newKeysOf st.allKeys (answersOf o), kf ∉ st.table.dynCols := by
    intro kf hkf
    rw [← hak]
    exact ((hnkmem kf).mp hkf).2
  have ht1 : (newKeysOf st.allKeys (answersOf o)).foldl addColumn st.table =
      { st.table with dynCols := st.table.dynCols ++ newKeysOf st.allKeys (answersOf o) } :=
    foldl_addColumn _ st.table hnknodup hnkfile hnkdisj
  have hak1nodup : (st.allKeys ++ newKeysOf st.allKeys (answersOf o)).Nodup := by
    refine List.Nodup.append (hak ▸ hndc) hnknodup ?_
    intro a ha1 ha2
    exact ((hnkmem a).mp ha2).2 ha1
  have hsub : ∀ kf ∈ (answersOf o).map Prod.fst,
      kf ∈ st.allKeys ++ newKeysOf st.allKeys (answersOf o) := by
    intro kf hkf
    rw [List.mem_append]
    by_cases hin : kf ∈ st.allKeys
    · exact Or.inl hin
    · exact Or.inr ((hnkmem kf).mpr ⟨hkf, hin⟩)
  have hkeyP : ∀ y r, RowP processed y r → r.key = PVal.vstr y := fun _ _ h => h.1
  have hQrel : ∀ r, RowP processed rel r →
      RowP (processed ++ [(rel, o)]) rel
        (writeRow r (st.allKeys ++ newKeysOf st.allKeys (answersOf o)) (answersOf o)) := by
    intro r hP
    constructor
    · rw [writeRow_key hnofile]
      exact hP.1
    · intro kf
      have hbase : ∀ k, List.lookup k r.cells = none := by
        intro k
        rw [hP.2 k, ansFor_not_mem hfresh]
        rfl
      rw [writeRow_cells_full hnofile hak1nodup hsub hbase kf,
        ansFor_append_fresh hfresh, if_pos rfl]
  have hQoth : ∀ x r, x ≠ rel → RowP processed x r →
      RowP (processed ++ [(rel, o)]) x r := by
    intro x r hx hP
    exact ⟨hP.1, fun kf => by rw [hP.2 kf, ansFor_append_fresh hfresh, if_neg hx]⟩
  obtain ⟨i, hfind, hOK2⟩ := RowsOK_update hkeyP hQrel hQoth hrows hrel hnd
  refine ⟨⟨⟨st.table.rows.set i
      (writeRow (st.table.rows.getD i defaultRow)
        (st.allKeys ++ newKeysOf st.allKeys (answersOf o)) (answersOf o)),
      st.table.dynCols ++ newKeysOf st.allKeys (answersOf o)⟩,
      st.allKeys ++ newKeysOf st.allKeys (answersOf o)⟩, ?_, ?_, ?_, ?_, ?_, ?_⟩
  · show mergeFind
        { table := (newKeysOf st.allKeys (answersOf o)).foldl addColumn st.table,
          allKeys := st.allKeys ++ newKeysOf st.allKeys (answersOf o) }
        rel (answersOf o) = _
    rw [ht1]
    exact mergeFind_found hfind
  · exact hOK2
  · show st.allKeys ++ newKeysOf st.allKeys (answersOf o) =
      st.table.dynCols ++ newKeysOf st.allKeys (answersOf o)
    rw [hak]
  · refine List.Nodup.append hndc hnknodup ?_
    intro a ha1 ha2
    exact ((hnkmem a).mp ha2).2 (hak ▸ ha1)
  · rw [List.mem_append]
    rintro (h | h)
    · exact hfc h
    · exact hnkfile h
  · intro kf
    show kf ∈ st.table.dynCols ++ newKeysOf st.allKeys (answersOf o) ↔ _
    rw [List.mem_append]
    constructor
    · rintro (h | h)
      · obtain ⟨c, hc, hkf⟩ := (hcols kf).mp h
        exact ⟨c, List.mem_append_left _ hc, hkf⟩
      · exact ⟨(rel, o), List.mem_append_right _ (List.mem_singleton.mpr rfl),
          ((hnkmem kf).mp h).1⟩
    · rintro ⟨c, hc, hkf⟩
      rcases List.mem_append.mp hc with hc1 | hc1
      · exact Or.inl ((hcols kf).mpr ⟨c, hc1, hkf⟩)
      · have hceq : c = (rel, o) := List.mem_singleton.mp hc1
        rw [hceq] at hkf
        by_cases hin : kf ∈ st.allKeys
        · exact Or.inl (hak ▸ hin)
        · exact Or.inr ((hnkmem kf).mpr ⟨hkf, hin⟩)

theorem runMerges_master {fl : List String} (hnd : fl.Nodup) :
    ∀ (comps processed : List (String × AIOutcome)) (st : BState),
      Inv fl processed st →
      (∀ c ∈ comps, c.1 ∈ fl) →
      ((processed ++ comps).map Prod.fst).Nodup →
      (∀ c ∈ comps, "file" ∉ (answersOf c.2).map Prod.fst) →
      ∃ st1, runMerges st comps = some st1 ∧ Inv fl (processed ++ comps) st1 := by
  intro comps
  induction comps with
  | nil =>
      intro processed st hInv _ _ _
      exact ⟨st, rfl, by simpa using hInv⟩
  | cons c rest ih =>
      intro processed st hInv hmem hnodup hnofile
      have hfresh : c.1 ∉ processed.map Prod.fst := by
        rw [List.map_append] at hnodup
        have hd := (List.nodup_append.mp hnodup).2.2
        intro hmem2
        exact hd hmem2 (by simp)
      obtain ⟨st1, hmerge, hInv1⟩ :=
        mergeOne_step hInv (hmem c (List.mem_cons_self c rest)) hnd hfresh
          (hnofile c (List.mem_cons_self c rest))
      have hrun : runMerges st (c :: rest) = runMerges st1 rest := by
        show (match mergeOne st c.1 (answersOf c.2) with
              | none => none
              | some st2 => runMerges st2 rest) = runMerges st1 rest
        rw [hmerge]
      have hInv1' : Inv fl (processed ++ [c]) st1 := hInv1
      have hnodup' : (((processed ++ [c]) ++ rest).map Prod.fst).Nodup := by
        rw [List.append_assoc, List.singleton_append]
        exact hnodup
      obtain ⟨st2, hrun2, hInv2⟩ := ih (processed ++ [c]) st1 hInv1'
        (fun d hd => hmem d (List.mem_cons_of_mem c hd)) hnodup'
        (fun d hd => hnofile d (List.mem_cons_of_mem c hd))
      refine ⟨st2, by rw [hrun]; exact hrun2, ?_⟩
      rw [show processed ++ c :: rest = (processed ++ [c]) ++ rest by
        rw [List.append_assoc, List.singleton_append]]
      exact hInv2

theorem RowsOK_init : ∀ fl : List String,
    RowsOK (RowP []) fl (fl.map (fun f => { key := PVal.vstr f, cells := [] })) := by
  intro fl
  induction fl with
  | nil => trivial
  | cons x fl ih => exact ⟨⟨rfl, fun _ => rfl⟩, ih⟩

theorem Inv_init (fl : List String) : Inv fl [] (initState fl) := by
  refine ⟨RowsOK_init fl, rfl, List.nodup_nil, List.not_mem_nil _, ?_⟩
  intro kf
  simp [initState]

theorem stream_master {fl : List String} {comps : List (String × AIOutcome)}
    (hnd : fl.Nodup) (hperm : List.Perm (comps.map Prod.fst) fl)
    (hnofile : ∀ c ∈ comps, "file" ∉ (answersOf c.2).map Prod.fst) :
    ∃ st1, runMerges (initState fl) comps = some st1 ∧ Inv fl comps st1 := by
  have h1 : ∀ c ∈ comps, c.1 ∈ fl :=
    fun c hc => hperm.mem_iff.mp (List.mem_map_of_mem Prod.fst hc)
  have h2 : (([] ++ comps).map Prod.fst).Nodup := by
    simpa using hperm.nodup_iff.mpr hnd
  have h3 := runMerges_master hnd comps [] (initState fl) (Inv_init fl) h1 h2 hnofile
  simpa using h3

theorem stream_files_ok {cpu : Option Nat} {fl : List String}
    {comps : List (String × AIOutcome)} {st1 : BState}
    (h : runMerges (initState fl) comps = some st1) :
    stream_files cpu fl comps = .ok st1.table := by
  have hw : ¬((max_workers cpu : Int) ≤ 0) := by
    have h2 := (max_workers_bounds cpu).1
    omega
  unfold stream_files stream_files_pool
  rw [if_neg hw, h]

/- ────────────────────────────────────────────────────────────
   Claim C1 (one row per work item, keyed by its file reference).
   ──────────────────────────────────────────────────────────── -/

/-- Claim C1, counterexample: a run over the distinct items a and b in
which the extraction of b returns a field named file (the row-key
column).  The merge of that completion overwrites the key column and then
raises IndexError, so no final ResultTable exists at all, refuting the
claim for this completion order. -/
theorem claim_C1_counterexample :
    (["a", "b"] : List String).Nodup ∧
    List.Perm ([("b", AIOutcome.ok (some [("file", PVal.vstr "v")])),
      ("a", AIOutcome.ok none)].map Prod.fst) ["a", "b"] ∧
    stream_files (some 4) ["a", "b"]
      [("b", .ok (some [("file", .vstr "v")])), ("a", .ok none)] = .error .indexError :=
  ⟨by decide, by decide, rfl⟩

/-- Claim C1, amended: for every non-empty list of distinct work-item
file references, provided no item answer contains a field named file
(the row-key column), the final ResultTable exists and has exactly one
row per work item, keyed by its file reference in input order with no
duplicate keys, regardless of the order in which extractions complete. -/
theorem claim_C1_amended (cpu : Option Nat) (fl : List String)
    (comps : List (String × AIOutcome))
    (hne : fl ≠ []) (hnd : fl.Nodup)
    (hperm : List.Perm (comps.map Prod.fst) fl)
    (hnofile : ∀ c ∈ comps, "file" ∉ (answersOf c.2).map Prod.fst) :
    ∃ t, stream_files cpu fl comps = .ok t ∧
      t.rows.map Row.key = fl.map PVal.vstr ∧ (t.rows.map Row.key).Nodup := by
  obtain ⟨st1, hrun, hInv⟩ := stream_master hnd hperm hnofile
  refine ⟨st1.table, stream_files_ok hrun, ?_, ?_⟩
  · exact RowsOK_map_key (fun _ _ h => h.1) hInv.1
  · rw [RowsOK_map_key (fun _ _ h => h.1) hInv.1]
    exact hnd.map (fun a b h => PVal.vstr.inj h)

/-- Claim C1, witness: a two-item run, one item failing, completing in
reverse order. -/
theorem claim_C1_witness :
    ∃ t, stream_files none ["a", "b"]
        [("b", .ok (some [("x", .vstr "1")])), ("a", .exn "boom")] = .ok t ∧
      t.rows.map Row.key = (["a", "b"] : List String).map PVal.vstr ∧
      (t.rows.map Row.key).Nodup :=
  claim_C1_amended none ["a", "b"]
    [("b", .ok (some [("x", .vstr "1")])), ("a", .exn "boom")]
    (by decide) (by decide) (by decide) (by decide)

/- ────────────────────────────────────────────────────────────
   Claim C2 (column set equals the union of returned field names).
   ──────────────────────────────────────────────────────────── -/

/-- Claim C2, counterexample: a completed batch over the single item with
the empty-string file reference whose answer contains the field named
file.  The run completes, but the final table has no dynamic column at
all even though a non-failed item returned the field name file, so the
dynamic column set does not equal the union of returned field names. -/
theorem claim_C2_counterexample :
    stream_files (some 4) [""] [("", .ok (some [("file", .vstr "X")]))] =
      .ok { rows := [{ key := .vstr "X", cells := [] }], dynCols := [] } ∧
    isFailure (AIOutcome.ok (some [("file", PVal.vstr "X")])) = false ∧
    "file" ∈ (answersOf (AIOutcome.ok (some [("file", PVal.vstr "X")]))).map Prod.fst ∧
    "file" ∉ ([] : List String) :=
  ⟨rfl, rfl, by decide, by decide⟩

/-- Claim C2, amended: for every completed batch over distinct file
references in which no item answer contains a field named file (the
row-key column), the set of dynamic columns of the final ResultTable
equals the union of the field names returned by the items whose
extraction did not fail, no column is lost, and no column name (the key
column included) appears more than once, under any completion
interleaving. -/
theorem claim_C2_amended (cpu : Option Nat) (fl : List String)
    (comps : List (String × AIOutcome))
    (hnd : fl.Nodup)
    (hperm : List.Perm (comps.map Prod.fst) fl)
    (hnofile : ∀ c ∈ comps, "file" ∉ (answersOf c.2).map Prod.fst) :
    ∃ t, stream_files cpu fl comps = .ok t ∧
      (∀ kf, kf ∈ t.dynCols ↔
        ∃ c ∈ comps, isFailure c.2 = false ∧ kf ∈ (answersOf c.2).map Prod.fst) ∧
      t.dynCols.Nodup ∧ "file" ∉ t.dynCols := by
  obtain ⟨st1, hrun, hInv⟩ := stream_master hnd hperm hnofile
  obtain ⟨hrows, hak, hndc, hfc, hcols⟩ := hInv
  refine ⟨st1.table, stream_files_ok hrun, ?_, hndc, hfc⟩
  intro kf
  rw [hcols kf]
  constructor
  · rintro ⟨c, hc, hkf⟩
    have hnf : isFailure c.2 = false := by
      cases hc2 : c.2 with
      | exn m => rw [hc2] at hkf; exact absurd hkf (by simp [answersOf])
      | ok r => rfl
    exact ⟨c, hc, hnf, hkf⟩
  · rintro ⟨c, hc, _, hkf⟩
    exact ⟨c, hc, hkf⟩

/-- Claim C2, witness: two items, one failing, one returning two fields,
completing in reverse order. -/
theorem claim_C2_witness :
    ∃ t, stream_files none ["a", "b"]
        [("b", .ok (some [("x", .vstr "1"), ("y", .vint 2)])), ("a", .exn "boom")] = .ok t ∧
      (∀ kf, kf ∈ t.dynCols ↔
        ∃ c ∈ [("b", AIOutcome.ok (some [("x", PVal.vstr "1"), ("y", PVal.vint 2)])),
          ("a", AIOutcome.exn "boom")],
          isFailure c.2 = false ∧ kf ∈ (answersOf c.2).map Prod.fst) ∧
      t.dynCols.Nodup ∧ "file" ∉ t.dynCols :=
  claim_C2_amended none ["a", "b"]
    [("b", .ok (some [("x", .vstr "1"), ("y", .vint 2)])), ("a", .exn "boom")]
    (by decide) (by decide) (by decide)

/- ────────────────────────────────────────────────────────────
   Claim C3 (failed items are isolated).
   ──────────────────────────────────────────────────────────── -/

/-- Claim C3, counterexample: the extraction of item e raises, a sibling
item (the empty-string reference) returns a field named file, and the
batch completes; yet the final completed ResultTable contains no row
keyed e at all (the sibling merge destroyed the key column), refuting
the claim that the failed item is always present with default cells. -/
theorem claim_C3_counterexample :
    stream_files (some 4) ["e", ""]
      [("e", .exn "boom"), ("", .ok (some [("file", .vstr "v")]))] =
      .ok { rows := [{ key := .vstr "v", cells := [] },
        { key := .vstr "", cells := [] }], dynCols := [] } ∧
    findRow { rows := [{ key := PVal.vstr "v", cells := [] },
      { key := PVal.vstr "", cells := [] }], dynCols := [] } "e" = none :=
  ⟨rfl, rfl⟩

/-- Claim C3, amended: over distinct file references, provided no item
answer contains a field named file, an item whose extraction call raises
is treated as a success with an empty answer map (process_one yields the
empty dict); the batch run completes with every sibling row present, and
the failed item has its row keyed by its reference with no dynamic cell
written (every dynamic column at its default empty value). -/
theorem claim_C3_amended (cpu : Option Nat) (fl : List String)
    (comps : List (String × AIOutcome)) (e msg : String)
    (hnd : fl.Nodup)
    (hperm : List.Perm (comps.map Prod.fst) fl)
    (hnofile : ∀ c ∈ comps, "file" ∉ (answersOf c.2).map Prod.fst)
    (hfail : (e, AIOutcome.exn msg) ∈ comps) :
    answersOf (.exn msg) = [] ∧
    ∃ t, stream_files cpu fl comps = .ok t ∧
      t.rows.map Row.key = fl.map PVal.vstr ∧
      findRow t e = some { key := .vstr e, cells := [] } := by
  refine ⟨rfl, ?_⟩
  obtain ⟨st1, hrun, hInv⟩ := stream_master hnd hperm hnofile
  have he : e ∈ fl := hperm.mem_iff.mp (List.mem_map_of_mem Prod.fst hfail)
  obtain ⟨r, hfr, hP⟩ := RowsOK_find (fun _ _ h => h.1) hInv.1 he
  have hcnd : (comps.map Prod.fst).Nodup := hperm.nodup_iff.mpr hnd
  have hans : ansFor comps e = [] := ansFor_mem hcnd hfail
  have hcells : r.cells = [] := by
    apply eq_nil_of_lookup_none
    intro k
    rw [hP.2 k, hans]
    rfl
  have hr : r = { key := PVal.vstr e, cells := [] } := by
    obtain ⟨rk, rc⟩ := r
    simp only [Row.mk.injEq]
    exact ⟨hP.1, hcells⟩
  refine ⟨st1.table, stream_files_ok hrun,
    RowsOK_map_key (fun _ _ h => h.1) hInv.1, ?_⟩
  show findRow st1.table e = _
  unfold findRow
  rw [hfr, hr]

/-- Claim C3, witness: item e fails while its sibling succeeds; the run
completes, both rows are present, and the row of e has no cells. -/
theorem claim_C3_witness :
    answersOf (.exn "boom") = [] ∧
    ∃ t, stream_files none ["a", "e"]
        [("e", .exn "boom"), ("a", .ok (some [("x", .vstr "1")]))] = .ok t ∧
      t.rows.map Row.key = (["a", "e"] : List String).map PVal.vstr ∧
      findRow t "e" = some { key := .vstr "e", cells := [] } :=
  claim_C3_amended none ["a", "e"]
    [("e", .exn "boom"), ("a", .ok (some [("x", .vstr "1")]))] "e" "boom"
    (by decide) (by decide) (by decide) (List.mem_cons_self _ _)

/- ────────────────────────────────────────────────────────────
   Claim C4 (per-row isolation).
   ──────────────────────────────────────────────────────────── -/

/-- Claim C4, counterexample: with rows for the distinct items a and b in
place, merging the answer of item b that contains a field named file (the
collision case the claim explicitly includes) does not leave the row of
item a intact: the merge returns no table at all (the key column is
overwritten and ridx[0] raises IndexError), although the row keyed a
existed beforehand. -/
theorem claim_C4_counterexample :
    mergeOne (initState ["a", "b"]) "b" [("file", .vstr "v")] = none ∧
    findRow (initState ["a", "b"]).table "a" =
      some { key := PVal.vstr "a", cells := [] } :=
  ⟨rfl, rfl⟩

/-- Claim C4, amended: over distinct file references, provided no item
answer contains a field named file (the row-key column), the final row
keyed by work item X reflects exactly the answer of X itself: its key is
X and, for every field name, its stored cell equals the value of that
field in the answer of X (other items' merges never touch it). -/
theorem claim_C4_amended (cpu : Option Nat) (fl : List String)
    (comps : List (String × AIOutcome)) (X : String) (oX : AIOutcome)
    (hnd : fl.Nodup)
    (hperm : List.Perm (comps.map Prod.fst) fl)
    (hnofile : ∀ c ∈ comps, "file" ∉ (answersOf c.2).map Prod.fst)
    (hmemX : (X, oX) ∈ comps) :
    ∃ t r, stream_files cpu fl comps = .ok t ∧ findRow t X = some r ∧
      r.key = PVal.vstr X ∧
      ∀ kf, List.lookup kf r.cells = List.lookup kf (answersOf oX) := by
  obtain ⟨st1, hrun, hInv⟩ := stream_master hnd hperm hnofile
  have hX : X ∈ fl := hperm.mem_iff.mp (List.mem_map_of_mem Prod.fst hmemX)
  obtain ⟨r, hfr, hP⟩ := RowsOK_find (fun _ _ h => h.1) hInv.1 hX
  have hcnd : (comps.map Prod.fst).Nodup := hperm.nodup_iff.mpr hnd
  refine ⟨st1.table, r, stream_files_ok hrun, ?_, hP.1, ?_⟩
  · show findRow st1.table X = some r
    unfold findRow
    exact hfr
  · intro kf
    rw [hP.2 kf, ansFor_mem hcnd hmemX]

/-- Claim C4, witness: item b returns one field; its final row carries
exactly that answer. -/
theorem claim_C4_witness :
    ∃ t r, stream_files none ["a", "b"]
        [("b", .ok (some [("x", .vstr "1")])), ("a", .exn "boom")] = .ok t ∧
      findRow t "b" = some r ∧ r.key = PVal.vstr "b" ∧
      ∀ kf, List.lookup kf r.cells =
        List.lookup kf (answersOf (.ok (some [("x", .vstr "1")]))) :=
  claim_C4_amended none ["a", "b"]
    [("b", .ok (some [("x", .vstr "1")])), ("a", .exn "boom")] "b"
    (.ok (some [("x", .vstr "1")]))
    (by decide) (by decide) (by decide) (List.mem_cons_self _ _)

end DocAI
